import Mathlib

set_option maxRecDepth 16384

/-!
Shallow embedding of `subnetting.py` (class `Subnetting`), an IPv4 subnet
calculator, together with proofs of the specification's claims about it.

Python strings are modelled as Lean `String` (with `List Char` as the working
representation).  A Python function that can raise an uncaught exception is
modelled with an `Option` result, `none` standing for the raised exception.
`ipaddr2bin` and `bin2ipaddr` never raise: they catch the `ValueError` and
return `err.message` (an ordinary string), which the model reproduces.
-/

namespace Subnetting

/-! ### Models of the Python primitives used by the source -/

/-- Value of a decimal digit character. -/
def digitVal (c : Char) : Nat := c.toNat - 48

/-- Fold of `int(s, base)` over the digit characters, accumulator style.
A character is accepted when it is a decimal digit whose value is below the
base (the source only uses bases 10 and 2). -/
def digitsValGo (base acc : Nat) : List Char → Option Nat
  | [] => some acc
  | c :: cs =>
    if 48 ≤ c.toNat ∧ c.toNat < 48 + base then
      digitsValGo base (acc * base + digitVal c) cs
    else none

/-- The numeric value of a nonempty all-digit character list, `none` otherwise. -/
def digitsVal (base : Nat) : List Char → Option Nat
  | [] => none
  | l => digitsValGo base 0 l

/-- Model of Python `int(s, base)` on a character list: an optional sign
followed by digits of the base; `none` models the raised `ValueError`.
(Surrounding whitespace, which Python would strip and which never occurs in
this program's data, is not modelled.) -/
def pyIntBase (base : Nat) : List Char → Option Int
  | '-' :: rest => (digitsVal base rest).map (fun n => -(n : Int))
  | '+' :: rest => (digitsVal base rest).map (fun n => (n : Int))
  | l => (digitsVal base l).map (fun n => (n : Int))

/-- Python `int(s)` on a string. -/
def pyInt (s : String) : Option Int := pyIntBase 10 s.data

/-- Python `int(c)` on a one-character string.  A single character parses
exactly when it is a decimal digit, so the value is a digit 0–9 and the
`Nat` view is exact. -/
def pyIntChar (c : Char) : Option Nat :=
  if 48 ≤ c.toNat ∧ c.toNat < 58 then some (digitVal c) else none

/-- Binary digits of `n`, most significant first (`['0']` for 0): the digit
part of Python `format(n, 'b')`.  The first argument is fuel, `n` is enough. -/
def natToBinAux : Nat → Nat → List Char → List Char
  | 0, _, acc => acc
  | fuel + 1, n, acc =>
    if n = 0 then acc
    else natToBinAux fuel (n / 2) ((if n % 2 = 1 then '1' else '0') :: acc)

/-- Binary rendering of a natural number, most significant digit first. -/
def natToBin (n : Nat) : List Char :=
  if n = 0 then ['0'] else natToBinAux n n []

/-- Decimal digits of `n`, most significant first: Python `str(n)` for
nonnegative `n`.  The first argument is fuel, `n` is enough. -/
def natToDecAux : Nat → Nat → List Char → List Char
  | 0, _, acc => acc
  | fuel + 1, n, acc =>
    if n = 0 then acc
    else natToDecAux fuel (n / 10) (Char.ofNat (48 + n % 10) :: acc)

/-- Decimal rendering of a natural number. -/
def natToDec (n : Nat) : List Char :=
  if n = 0 then ['0'] else natToDecAux n n []

/-- Python `str(v)` for an integer. -/
def intToDec (v : Int) : List Char :=
  if v < 0 then '-' :: natToDec (-v).toNat else natToDec v.toNat

/-- Zero padding on the left to width `w` (never truncates), as in Python's
`'0'`-fill of `format`. -/
def zfill (w : Nat) (l : List Char) : List Char :=
  List.replicate (w - l.length) '0' ++ l

/-- Model of Python `format(v, '08b')`: zero-padded 8-wide binary; for a
negative value the sign is part of the width and the zeros sit after it. -/
def pyFormat08b (v : Int) : List Char :=
  if v < 0 then '-' :: zfill 7 (natToBin (-v).toNat) else zfill 8 (natToBin v.toNat)

/-- Python `s.ljust(w, c)`: pad on the right to width `w`, never truncate. -/
def ljust (l : List Char) (w : Nat) (c : Char) : List Char :=
  l ++ List.replicate (w - l.length) c

/-- Python `sep.join(parts)` on character lists. -/
def joinWith (sep : List Char) : List (List Char) → List Char
  | [] => []
  | [x] => x
  | x :: xs => x ++ sep ++ joinWith sep xs

/-- Python `s.split(c)` for a one-character separator, on character lists.
The result is never empty; `[[]]` for the empty string, like Python. -/
def splitOnChar (c : Char) : List Char → List (List Char)
  | [] => [[]]
  | x :: xs =>
    if x = c then [] :: splitOnChar c xs
    else
      match splitOnChar c xs with
      | [] => [[x]]
      | r :: rs => (x :: r) :: rs

/-- Python `s.split(c)` on strings. -/
def splitS (c : Char) (s : String) : List String :=
  (splitOnChar c s.data).map String.mk

/-- Fuel-driven core of the 8-character chunking
`[binary[i:i+8] for i in range(0, len(binary), 8)]`. -/
def chunkF : Nat → List Char → List (List Char)
  | _, [] => []
  | 0, l => [l]
  | fuel + 1, l => l.take 8 :: chunkF fuel (l.drop 8)

/-- The source's split of a binary string into 8-bit segments. -/
def chunk8 (l : List Char) : List (List Char) := chunkF l.length l

/-- A single-quote character, used by Python's `ValueError` message. -/
def sq : String := String.singleton (Char.ofNat 39)

/-- The message of the `ValueError` Python 2 raises for a bad `int` literal,
which the source returns as `err.message`. -/
def invalidLit (base : Nat) (lit : String) : String :=
  "invalid literal for int() with base " ++ String.mk (natToDec base) ++ ": "
    ++ sq ++ lit ++ sq

/-! ### The source's functions -/

/-- Loop of `magic_number`: first octet whose `int` value differs from 255.
Outer `none` models a raised `ValueError`; `some none` models Python's
implicit `return None` when the loop falls through. -/
def magicLoop : Nat → List String → Option (Option (Int × Nat))
  | _, [] => some none
  | i, o :: os =>
    match pyInt o with
    | none => none
    | some v => if v ≠ 255 then some (some (256 - v, i)) else magicLoop (i + 1) os

/-- `magic_number(netmask)`: scan the dot-separated octets left to right and
return `(256 - octet, index)` for the first octet not equal to 255. -/
def magic_number (netmask : String) : Option (Option (Int × Nat)) :=
  magicLoop 0 (splitS '.' netmask)

/-- Helper of `ipaddr2bin`: convert every dot-piece with
`format(int(x), '08b')`, or report the first piece `int` rejects. -/
def ipaddr2binGo : List (List Char) → Except (List Char) (List (List Char))
  | [] => Except.ok []
  | p :: ps =>
    match pyIntBase 10 p with
    | none => Except.error p
    | some v =>
      match ipaddr2binGo ps with
      | Except.error q => Except.error q
      | Except.ok rs => Except.ok (pyFormat08b v :: rs)

/-- `ipaddr2bin(ipaddr, fmt)`: join the per-octet 8-bit binary strings with
`fmt`.  The source catches the `ValueError` of a bad octet and returns
`err.message`, so the result is a plain string either way. -/
def ipaddr2bin (ipaddr : String) (fmt : String) : String :=
  match ipaddr2binGo (splitOnChar '.' ipaddr.data) with
  | Except.ok parts => String.mk (joinWith fmt.data parts)
  | Except.error p => invalidLit 10 (String.mk p)

/-- Helper of `bin2ipaddr`: `str(int(octet, 2))` for every 8-bit segment, or
the first segment `int` rejects. -/
def bin2ipaddrGo : List (List Char) → Except (List Char) (List (List Char))
  | [] => Except.ok []
  | o :: os =>
    match pyIntBase 2 o with
    | none => Except.error o
    | some v =>
      match bin2ipaddrGo os with
      | Except.error q => Except.error q
      | Except.ok rs => Except.ok (intToDec v :: rs)

/-- `bin2ipaddr(binary)`: split into 8-bit segments, parse each as base 2 and
join with dots.  As in the source, a `ValueError` is caught and its message
returned. -/
def bin2ipaddr (binary : String) : String :=
  match bin2ipaddrGo (chunk8 binary.data) with
  | Except.ok parts => String.mk (joinWith ['.'] parts)
  | Except.error o => invalidLit 2 (String.mk o)

/-- `cidr2netmask(cidr)`: when `int(cidr) <= 32`, a string of that many ones
padded right with zeros to 32 bits, converted back to dotted decimal;
otherwise Python falls off the function and returns `None` (`none` here).
A negative argument passes the test and `range` of it is empty. -/
def cidr2netmask (cidr : Int) : Option String :=
  if cidr ≤ 32 then
    some (bin2ipaddr (String.mk (ljust (List.replicate cidr.toNat '1') 32 '0')))
  else none

/-- Loop of `netmask2cidr`: count characters whose `int` value is 1; `none`
models the `ValueError` raised on a non-digit character. -/
def countOnes : List Char → Option Nat
  | [] => some 0
  | c :: cs =>
    match pyIntChar c with
    | none => none
    | some v =>
      match countOnes cs with
      | none => none
      | some n => some (if v = 1 then n + 1 else n)

/-- `netmask2cidr(netmask)`: count the ones of the binary form. -/
def netmask2cidr (netmask : String) : Option Nat :=
  countOnes (ipaddr2bin netmask "").data

/-- `wildcard(netmask)`: complement every character of the binary form
(`'0' if x == '1' else '1'`) and convert back to dotted decimal. -/
def wildcard (netmask : String) : String :=
  bin2ipaddr (String.mk ((ipaddr2bin netmask "").data.map
    (fun x => if x = '1' then '0' else '1')))

/-- The zipped per-character loop of `network`/`broadcast`:
`op(int(a), int(b))` over `zip`, truncating at the shorter list; `none`
models the `ValueError` of a non-digit character. -/
def bitZip (op : Nat → Nat → Nat) : List Char → List Char → Option (List Nat)
  | a :: as, b :: bs =>
    match pyIntChar a, pyIntChar b with
    | some x, some y =>
      match bitZip op as bs with
      | some rest => some (op x y :: rest)
      | none => none
    | _, _ => none
  | _, _ => some []

/-- `''.join(str(item) for item in bits)`. -/
def renderBits (l : List Nat) : List Char :=
  joinWith [] (l.map natToDec)

/-- Netmask resolution shared by `network` and `broadcast`: a mask spec of
string length at most 2 is treated as CIDR (with `cidr2netmask`, whose `None`
result then crashes `ipaddr2bin`), anything longer as a dotted netmask. -/
def resolveMaskBits (netmask : String) : Option String :=
  if netmask.length ≤ 2 then
    match pyInt netmask with
    | none => none
    | some c =>
      match cidr2netmask c with
      | none => none
      | some nm => some (ipaddr2bin nm "")
  else some (ipaddr2bin netmask "")

/-- `network(ipaddr)`: split on `/` (exactly two parts, else Python's tuple
unpacking raises), resolve the netmask, bitwise AND the binary strings
character by character and convert back to dotted decimal. -/
def network (ipaddrArg : String) : Option String :=
  match splitS '/' ipaddrArg with
  | [addr, netmask] =>
    match resolveMaskBits netmask with
    | none => none
    | some binNetmask =>
      match bitZip Nat.land (ipaddr2bin addr "").data binNetmask.data with
      | none => none
      | some bits => some (bin2ipaddr (String.mk (renderBits bits)))
  | _ => none

/-- The bit complement `broadcast` applies to the binary netmask:
`'1' if x == '0' else '0'`. -/
def compB (l : List Char) : List Char :=
  l.map (fun x => if x = '0' then '1' else '0')

/-- `broadcast(ipaddr)`: like `network` but the netmask bits are complemented
first and the combination is a bitwise OR. -/
def broadcast (ipaddrArg : String) : Option String :=
  match splitS '/' ipaddrArg with
  | [addr, netmask] =>
    match resolveMaskBits netmask with
    | none => none
    | some binNetmask =>
      match bitZip Nat.lor (ipaddr2bin addr "").data (compB binNetmask.data) with
      | none => none
      | some bits => some (bin2ipaddr (String.mk (renderBits bits)))
  | _ => none

/-- Python `zip(a, b, c, d)`: truncate at the shortest list. -/
def zip4 {α : Type} : List α → List α → List α → List α → List (α × α × α × α)
  | a :: as, b :: bs, c :: cs, d :: ds => (a, b, c, d) :: zip4 as bs cs ds
  | _, _, _, _ => []

/-- The octet loop of `isipaddrnet`.  When the wildcard octet contains the
character `'0'` the address octet must equal (as a string) the network octet;
otherwise Python's chained comparison
`int(n)+1 <= int(i) <= int(b)-1` runs, short-circuiting before `int(b)`
when the first comparison fails.  `none` models a raised `ValueError`;
the loop never breaks early, so a later exception still raises. -/
def inNetLoop : List (String × String × String × String) → Option Bool
  | [] => some true
  | (n, i, w, b) :: rest =>
    if w.data.contains '0' then
      (inNetLoop rest).map (fun r => (i == n) && r)
    else
      match pyInt n, pyInt i with
      | some nv, some iv =>
        if nv + 1 ≤ iv then
          match pyInt b with
          | some bv => (inNetLoop rest).map (fun r => decide (iv ≤ bv - 1) && r)
          | none => none
        else (inNetLoop rest).map (fun r => false && r)
      | _, _ => none

/-- `isipaddrnet(ipaddr, network)`: take the mask spec after `/` (Python's
`[1]` raises when absent), test `int(netmask) <= 32` (the `int` call raises
on a dotted netmask), derive wildcard, network and broadcast, and run the
per-octet loop over the four zipped octet lists. -/
def isipaddrnet (ipaddr netArg : String) : Option Bool :=
  match (splitS '/' netArg).get? 1 with
  | none => none
  | some netmask0 =>
    match pyInt netmask0 with
    | none => none
    | some v =>
      let wildcardStr? : Option String :=
        if v ≤ 32 then
          match cidr2netmask v with
          | none => none
          | some nm => some (wildcard nm)
        else some (wildcard netmask0)
      match wildcardStr? with
      | none => none
      | some wc =>
        match network netArg, broadcast netArg with
        | some net, some bcast =>
          inNetLoop (zip4 (splitS '.' net) (splitS '.' ipaddr)
            (splitS '.' wc) (splitS '.' bcast))
        | _, _ => none

/-! ### Canonical dotted-decimal strings and spec-side octet arithmetic -/

/-- Canonical decimal rendering of a number as a string. -/
def decS (n : Nat) : String := String.mk (natToDec n)

/-- Canonical dotted-decimal rendering `a.b.c.d` of four octet values. -/
def quadStr (a b c d : Nat) : String :=
  String.mk (natToDec a ++ '.' :: (natToDec b ++ '.' :: (natToDec c ++ '.' :: natToDec d)))

/-- The character of one bit. -/
def bitChar (b : Bool) : Char := if b then '1' else '0'

/-- The 8 binary characters of an octet value, most significant bit first. -/
def bits8L (n : Nat) : List Char :=
  [bitChar (n.testBit 7), bitChar (n.testBit 6), bitChar (n.testBit 5),
   bitChar (n.testBit 4), bitChar (n.testBit 3), bitChar (n.testBit 2),
   bitChar (n.testBit 1), bitChar (n.testBit 0)]

/-- Octet `i` of the netmask of CIDR prefix length `m`: its top
`min (m - 8i) 8` bits (clamped below at 0 by truncated subtraction) are ones. -/
def maskOct (m i : Nat) : Nat := 255 - (2 ^ (8 - min (m - 8 * i) 8) - 1)

/-- Octet `i` of the wildcard mask of CIDR prefix length `m`. -/
def wcOctN (m i : Nat) : Nat := 255 - maskOct m i

/-- The specification's per-octet membership check: where the wildcard octet
is 0 the candidate octet must equal the network octet; where there are host
bits it must lie strictly inside
`networkOctet + 1 <= candidateOctet <= broadcastOctet - 1`. -/
def octetCheck (netO ipO wcO bcO : Nat) : Bool :=
  if wcO = 0 then ipO == netO
  else decide ((netO : Int) + 1 ≤ (ipO : Int) ∧ (ipO : Int) ≤ (bcO : Int) - 1)

/-- The specification's whole-address membership predicate for a CIDR query:
every octet position passes `octetCheck` against the arithmetic network,
wildcard and broadcast octets. -/
def inNetSpec (e f g h a b c d m : Nat) : Bool :=
  octetCheck (a &&& maskOct m 0) e (wcOctN m 0) (a ||| wcOctN m 0)
    && octetCheck (b &&& maskOct m 1) f (wcOctN m 1) (b ||| wcOctN m 1)
    && octetCheck (c &&& maskOct m 2) g (wcOctN m 2) (c ||| wcOctN m 2)
    && octetCheck (d &&& maskOct m 3) h (wcOctN m 3) (d ||| wcOctN m 3)

/-- The value `magic_number` is specified to produce on a netmask with at
least one octet below 255: 256 minus the leftmost non-255 octet, with its
index. -/
def magicSpec (w x y z : Nat) : Int × Nat :=
  if w ≠ 255 then (256 - (w : Int), 0)
  else if x ≠ 255 then (256 - (x : Int), 1)
  else if y ≠ 255 then (256 - (y : Int), 2)
  else (256 - (z : Int), 3)

/-! ### Per-octet facts settled by evaluation over all octet values -/

theorem pyIntB10_dec : ∀ n : Nat, n < 256 → pyIntBase 10 (natToDec n) = some (n : Int) := by
  decide

theorem format_bits : ∀ n : Nat, n < 256 → pyFormat08b (n : Int) = bits8L n := by
  decide

theorem pyIntB2_bits : ∀ n : Nat, n < 256 → pyIntBase 2 (bits8L n) = some (n : Int) := by
  decide

theorem dot_not_mem_dec : ∀ n : Nat, n < 256 → '.' ∉ natToDec n := by
  decide

theorem slash_not_mem_dec : ∀ n : Nat, n < 256 → '/' ∉ natToDec n := by
  decide

theorem dec_ne_nil : ∀ n : Nat, n < 256 → natToDec n ≠ [] := by
  decide

theorem compW_bits : ∀ n : Nat, n < 256 →
    (bits8L n).map (fun x => if x = '1' then '0' else '1') = bits8L (255 - n) := by
  decide

theorem compB_bits : ∀ n : Nat, n < 256 → compB (bits8L n) = bits8L (255 - n) := by
  decide

theorem cidr2netmask_quad : ∀ m : Nat, m < 33 →
    cidr2netmask (m : Int) =
      some (quadStr (maskOct m 0) (maskOct m 1) (maskOct m 2) (maskOct m 3)) := by
  decide

theorem dec_len_le2 : ∀ m : Nat, m < 33 → (natToDec m).length ≤ 2 := by
  decide

theorem wc_contains0 : ∀ m : Nat, m < 33 → ∀ i : Nat, i < 4 →
    ((natToDec (wcOctN m i)).contains '0') = (wcOctN m i == 0) := by
  decide

/-! ### Structural lemmas about the string primitives -/

theorem splitOnChar_not_mem {c : Char} : ∀ {xs : List Char}, c ∉ xs →
    splitOnChar c xs = [xs] := by
  intro xs
  induction xs with
  | nil => intro _; rfl
  | cons x t ih =>
    intro h
    have hx : ¬ x = c := fun e => h (by simp [e])
    have ht : c ∉ t := fun m => h (List.mem_cons_of_mem _ m)
    simp only [splitOnChar, if_neg hx, ih ht]

theorem splitOnChar_append {c : Char} (ys : List Char) : ∀ {xs : List Char}, c ∉ xs →
    splitOnChar c (xs ++ c :: ys) = xs :: splitOnChar c ys := by
  intro xs
  induction xs with
  | nil => intro _; simp [splitOnChar]
  | cons x t ih =>
    intro h
    have hx : ¬ x = c := fun e => h (by simp [e])
    have ht : c ∉ t := fun m => h (List.mem_cons_of_mem _ m)
    simp only [List.cons_append, List.append_eq, splitOnChar, if_neg hx, ih ht]

theorem joinWith_nil_cons (a : List Char) (t : List (List Char)) :
    joinWith [] (a :: t) = a ++ joinWith [] t := by
  cases t <;> simp [joinWith]

@[simp] theorem renderBits_nil : renderBits [] = [] := rfl

theorem renderBits_cons (x : Nat) (l : List Nat) :
    renderBits (x :: l) = natToDec x ++ renderBits l := by
  simp only [renderBits, List.map_cons, joinWith_nil_cons]

theorem chunkF_congr : ∀ (f g : Nat) (l : List Char), l.length ≤ f → l.length ≤ g →
    chunkF f l = chunkF g l := by
  intro f
  induction f with
  | zero =>
    intro g l hf _
    have : l = [] := List.eq_nil_of_length_eq_zero (Nat.le_zero.mp hf)
    subst this
    cases g <;> rfl
  | succ f ih =>
    intro g l hf hg
    cases l with
    | nil => cases g <;> rfl
    | cons a t =>
      cases g with
      | zero => simp at hg
      | succ g =>
        simp only [chunkF]
        have h1 : (List.drop 8 (a :: t)).length ≤ f := by
          simp only [List.length_drop, List.length_cons]
          simp only [List.length_cons] at hf
          omega
        have h2 : (List.drop 8 (a :: t)).length ≤ g := by
          simp only [List.length_drop, List.length_cons]
          simp only [List.length_cons] at hg
          omega
        rw [ih g (List.drop 8 (a :: t)) h1 h2]

theorem chunk8_append {x : List Char} (hx : x.length = 8) (rest : List Char) :
    chunk8 (x ++ rest) = x :: chunk8 rest := by
  have htake : (x ++ rest).take 8 = x := List.take_left' hx
  have hdrop : (x ++ rest).drop 8 = rest := List.drop_left' hx
  cases x with
  | nil => simp at hx
  | cons a t =>
    have hlen : ((a :: t) ++ rest).length = (7 + rest.length) + 1 := by
      simp only [List.length_append, hx]
      omega
    unfold chunk8
    rw [hlen]
    rw [show (a :: t) ++ rest = a :: (t ++ rest) from rfl]
    simp only [chunkF]
    rw [← List.cons_append a t rest]
    rw [htake, hdrop]
    rw [chunkF_congr (7 + rest.length) rest.length rest (by omega) (by omega)]

theorem chunk8_exact {x : List Char} (hx : x.length = 8) : chunk8 x = [x] := by
  have := chunk8_append hx []
  simpa using this

/-! ### Bit-level correspondence between the string pipeline and arithmetic -/

@[simp] theorem pyIntChar_bitChar (b : Bool) : pyIntChar (bitChar b) = some b.toNat := by
  cases b <;> rfl

@[simp] theorem natToDec_bit_toNat (b : Bool) : natToDec b.toNat = [bitChar b] := by
  cases b <;> rfl

@[simp] theorem land_bit_toNat (x y : Bool) : Nat.land x.toNat y.toNat = (x && y).toNat := by
  cases x <;> cases y <;> rfl

@[simp] theorem lor_bit_toNat (x y : Bool) : Nat.lor x.toNat y.toNat = (x || y).toNat := by
  cases x <;> cases y <;> rfl

@[simp] theorem bits8L_length (n : Nat) : (bits8L n).length = 8 := rfl

theorem bitZip_bits8 (op : Nat → Nat → Nat) (a w : Nat) (x y : List Char) :
    bitZip op (bits8L a ++ x) (bits8L w ++ y) =
      (bitZip op x y).map (fun r =>
        op (a.testBit 7).toNat (w.testBit 7).toNat ::
        (op (a.testBit 6).toNat (w.testBit 6).toNat ::
        (op (a.testBit 5).toNat (w.testBit 5).toNat ::
        (op (a.testBit 4).toNat (w.testBit 4).toNat ::
        (op (a.testBit 3).toNat (w.testBit 3).toNat ::
        (op (a.testBit 2).toNat (w.testBit 2).toNat ::
        (op (a.testBit 1).toNat (w.testBit 1).toNat ::
        (op (a.testBit 0).toNat (w.testBit 0).toNat :: r)))))))) := by
  cases hxy : bitZip op x y <;>
    simp [bits8L, bitZip, hxy]

theorem bitZip_bits8_last (op : Nat → Nat → Nat) (a w : Nat) :
    bitZip op (bits8L a) (bits8L w) =
      some [op (a.testBit 7).toNat (w.testBit 7).toNat,
        op (a.testBit 6).toNat (w.testBit 6).toNat,
        op (a.testBit 5).toNat (w.testBit 5).toNat,
        op (a.testBit 4).toNat (w.testBit 4).toNat,
        op (a.testBit 3).toNat (w.testBit 3).toNat,
        op (a.testBit 2).toNat (w.testBit 2).toNat,
        op (a.testBit 1).toNat (w.testBit 1).toNat,
        op (a.testBit 0).toNat (w.testBit 0).toNat] := by
  have h := bitZip_bits8 op a w [] []
  simpa using h

theorem renderBits_and8 (a w : Nat) (r : List Nat) :
    renderBits (Nat.land (a.testBit 7).toNat (w.testBit 7).toNat ::
        (Nat.land (a.testBit 6).toNat (w.testBit 6).toNat ::
        (Nat.land (a.testBit 5).toNat (w.testBit 5).toNat ::
        (Nat.land (a.testBit 4).toNat (w.testBit 4).toNat ::
        (Nat.land (a.testBit 3).toNat (w.testBit 3).toNat ::
        (Nat.land (a.testBit 2).toNat (w.testBit 2).toNat ::
        (Nat.land (a.testBit 1).toNat (w.testBit 1).toNat ::
        (Nat.land (a.testBit 0).toNat (w.testBit 0).toNat :: r)))))))) =
      bits8L (a &&& w) ++ renderBits r := by
  simp only [renderBits_cons, land_bit_toNat, natToDec_bit_toNat, bits8L,
    ← Nat.testBit_land]
  simp

theorem renderBits_or8 (a w : Nat) (r : List Nat) :
    renderBits (Nat.lor (a.testBit 7).toNat (w.testBit 7).toNat ::
        (Nat.lor (a.testBit 6).toNat (w.testBit 6).toNat ::
        (Nat.lor (a.testBit 5).toNat (w.testBit 5).toNat ::
        (Nat.lor (a.testBit 4).toNat (w.testBit 4).toNat ::
        (Nat.lor (a.testBit 3).toNat (w.testBit 3).toNat ::
        (Nat.lor (a.testBit 2).toNat (w.testBit 2).toNat ::
        (Nat.lor (a.testBit 1).toNat (w.testBit 1).toNat ::
        (Nat.lor (a.testBit 0).toNat (w.testBit 0).toNat :: r)))))))) =
      bits8L (a ||| w) ++ renderBits r := by
  simp only [renderBits_cons, lor_bit_toNat, natToDec_bit_toNat, bits8L,
    ← Nat.testBit_lor]
  simp

/-! ### The conversion pipeline on canonical dotted-decimal quads -/

theorem quad_data (a b c d : Nat) : (quadStr a b c d).data =
    natToDec a ++ '.' :: (natToDec b ++ '.' :: (natToDec c ++ '.' :: natToDec d)) := rfl

theorem quad_split {a b c d : Nat} (ha : a < 256) (hb : b < 256) (hc : c < 256)
    (hd : d < 256) :
    splitOnChar '.' (quadStr a b c d).data =
      [natToDec a, natToDec b, natToDec c, natToDec d] := by
  rw [quad_data]
  rw [splitOnChar_append _ (dot_not_mem_dec a ha),
    splitOnChar_append _ (dot_not_mem_dec b hb),
    splitOnChar_append _ (dot_not_mem_dec c hc),
    splitOnChar_not_mem (dot_not_mem_dec d hd)]

theorem ipaddr2bin_quad {a b c d : Nat} (ha : a < 256) (hb : b < 256) (hc : c < 256)
    (hd : d < 256) :
    ipaddr2bin (quadStr a b c d) "" =
      String.mk (bits8L a ++ (bits8L b ++ (bits8L c ++ bits8L d))) := by
  unfold ipaddr2bin
  rw [quad_split ha hb hc hd]
  simp only [ipaddr2binGo, pyIntB10_dec a ha, pyIntB10_dec b hb, pyIntB10_dec c hc,
    pyIntB10_dec d hd, format_bits a ha, format_bits b hb, format_bits c hc,
    format_bits d hd]
  simp [joinWith]

theorem intToDec_coe (n : Nat) : intToDec (n : Int) = natToDec n := by
  simp [intToDec]

theorem bin2ipaddr_bits {v1 v2 v3 v4 : Nat} (h1 : v1 < 256) (h2 : v2 < 256)
    (h3 : v3 < 256) (h4 : v4 < 256) :
    bin2ipaddr (String.mk (bits8L v1 ++ (bits8L v2 ++ (bits8L v3 ++ bits8L v4)))) =
      quadStr v1 v2 v3 v4 := by
  unfold bin2ipaddr
  rw [show (String.mk (bits8L v1 ++ (bits8L v2 ++ (bits8L v3 ++ bits8L v4)))).data =
    bits8L v1 ++ (bits8L v2 ++ (bits8L v3 ++ bits8L v4)) from rfl]
  rw [chunk8_append (bits8L_length v1), chunk8_append (bits8L_length v2),
    chunk8_append (bits8L_length v3), chunk8_exact (bits8L_length v4)]
  simp only [bin2ipaddrGo, pyIntB2_bits v1 h1, pyIntB2_bits v2 h2, pyIntB2_bits v3 h3,
    pyIntB2_bits v4 h4, intToDec_coe]
  simp [joinWith, quadStr]

theorem sub255_lt (n : Nat) : 255 - n < 256 := by omega

theorem wildcard_quad {w x y z : Nat} (hw : w < 256) (hx : x < 256) (hy : y < 256)
    (hz : z < 256) :
    wildcard (quadStr w x y z) = quadStr (255 - w) (255 - x) (255 - y) (255 - z) := by
  unfold wildcard
  rw [ipaddr2bin_quad hw hx hy hz]
  simp only [List.map_append, compW_bits w hw, compW_bits x hx, compW_bits y hy,
    compW_bits z hz]
  exact bin2ipaddr_bits (sub255_lt w) (sub255_lt x) (sub255_lt y) (sub255_lt z)

/-! ### Evaluating network and broadcast on canonical inputs -/

theorem and256 {x y : Nat} (hy : y < 256) : x &&& y < 256 := by
  have h : y < 2 ^ 8 := by simpa using hy
  simpa using Nat.and_lt_two_pow x h

theorem or256 {x y : Nat} (hx : x < 256) (hy : y < 256) : x ||| y < 256 := by
  have h1 : x < 2 ^ 8 := by simpa using hx
  have h2 : y < 2 ^ 8 := by simpa using hy
  simpa using Nat.or_lt_two_pow h1 h2

theorem maskOct_lt (m i : Nat) : maskOct m i < 256 := by
  have h := Nat.sub_le 255 (2 ^ (8 - min (m - 8 * i) 8) - 1)
  unfold maskOct
  omega

theorem wcOctN_lt (m i : Nat) : wcOctN m i < 256 := by
  have h := Nat.sub_le 255 (maskOct m i)
  unfold wcOctN
  omega

theorem compB_append (l1 l2 : List Char) : compB (l1 ++ l2) = compB l1 ++ compB l2 := by
  simp [compB]

theorem quad_slash_free {a b c d : Nat} (ha : a < 256) (hb : b < 256) (hc : c < 256)
    (hd : d < 256) : '/' ∉ (quadStr a b c d).data := by
  rw [quad_data]
  intro hmem
  simp only [List.mem_append, List.mem_cons] at hmem
  rcases hmem with h | h | h | h | h | h | h <;>
    first
      | exact (slash_not_mem_dec a ha) h
      | exact (slash_not_mem_dec b hb) h
      | exact (slash_not_mem_dec c hc) h
      | exact (slash_not_mem_dec d hd) h
      | simp at h

theorem splitS_slash {s t : String} (hs : '/' ∉ s.data) (ht : '/' ∉ t.data) :
    splitS '/' (s ++ "/" ++ t) = [s, t] := by
  unfold splitS
  have hdata : (s ++ "/" ++ t).data = s.data ++ '/' :: t.data := by simp
  rw [hdata, splitOnChar_append _ hs, splitOnChar_not_mem ht]
  rfl

theorem quad_length_ge7 {a b c d : Nat} (ha : a < 256) (hb : b < 256) (hc : c < 256)
    (hd : d < 256) : 7 ≤ (quadStr a b c d).length := by
  have la : 0 < (natToDec a).length := List.length_pos.mpr (dec_ne_nil a ha)
  have lb : 0 < (natToDec b).length := List.length_pos.mpr (dec_ne_nil b hb)
  have lc : 0 < (natToDec c).length := List.length_pos.mpr (dec_ne_nil c hc)
  have ld : 0 < (natToDec d).length := List.length_pos.mpr (dec_ne_nil d hd)
  show 7 ≤ (quadStr a b c d).data.length
  rw [quad_data]
  simp only [List.length_append, List.length_cons]
  omega

theorem resolveMaskBits_quad {w x y z : Nat} (hw : w < 256) (hx : x < 256) (hy : y < 256)
    (hz : z < 256) :
    resolveMaskBits (quadStr w x y z) =
      some (String.mk (bits8L w ++ (bits8L x ++ (bits8L y ++ bits8L z)))) := by
  have hlen : ¬ (quadStr w x y z).length ≤ 2 := by
    have := quad_length_ge7 hw hx hy hz
    omega
  simp only [resolveMaskBits, if_neg hlen, ipaddr2bin_quad hw hx hy hz]

theorem resolveMaskBits_cidr {m : Nat} (hm : m < 33) :
    resolveMaskBits (decS m) =
      some (String.mk (bits8L (maskOct m 0) ++ (bits8L (maskOct m 1) ++
        (bits8L (maskOct m 2) ++ bits8L (maskOct m 3))))) := by
  have hm256 : m < 256 := by omega
  have hlen : (decS m).length ≤ 2 := dec_len_le2 m hm
  have hpy : pyInt (decS m) = some (m : Int) := pyIntB10_dec m hm256
  simp only [resolveMaskBits, if_pos hlen, hpy, cidr2netmask_quad m hm,
    ipaddr2bin_quad (maskOct_lt m 0) (maskOct_lt m 1) (maskOct_lt m 2) (maskOct_lt m 3)]

theorem network_quad_mask {a b c d w x y z : Nat} (ha : a < 256) (hb : b < 256)
    (hc : c < 256) (hd : d < 256) (hw : w < 256) (hx : x < 256) (hy : y < 256)
    (hz : z < 256) :
    network (quadStr a b c d ++ "/" ++ quadStr w x y z) =
      some (quadStr (a &&& w) (b &&& x) (c &&& y) (d &&& z)) := by
  simp only [network,
    splitS_slash (quad_slash_free ha hb hc hd) (quad_slash_free hw hx hy hz),
    resolveMaskBits_quad hw hx hy hz, ipaddr2bin_quad ha hb hc hd]
  rw [bitZip_bits8, bitZip_bits8, bitZip_bits8, bitZip_bits8_last]
  simp only [Option.map_some']
  rw [renderBits_and8, renderBits_and8, renderBits_and8, renderBits_and8]
  simp only [renderBits_nil, List.append_nil]
  rw [bin2ipaddr_bits (and256 hw) (and256 hx) (and256 hy) (and256 hz)]

theorem network_quad_cidr {a b c d m : Nat} (ha : a < 256) (hb : b < 256)
    (hc : c < 256) (hd : d < 256) (hm : m < 33) :
    network (quadStr a b c d ++ "/" ++ decS m) =
      some (quadStr (a &&& maskOct m 0) (b &&& maskOct m 1) (c &&& maskOct m 2)
        (d &&& maskOct m 3)) := by
  have hm256 : m < 256 := by omega
  simp only [network,
    splitS_slash (quad_slash_free ha hb hc hd)
      (show ('/' : Char) ∉ (decS m).data from slash_not_mem_dec m hm256),
    resolveMaskBits_cidr hm, ipaddr2bin_quad ha hb hc hd]
  rw [bitZip_bits8, bitZip_bits8, bitZip_bits8, bitZip_bits8_last]
  simp only [Option.map_some']
  rw [renderBits_and8, renderBits_and8, renderBits_and8, renderBits_and8]
  simp only [renderBits_nil, List.append_nil]
  rw [bin2ipaddr_bits (and256 (maskOct_lt m 0)) (and256 (maskOct_lt m 1))
    (and256 (maskOct_lt m 2)) (and256 (maskOct_lt m 3))]

theorem broadcast_quad_mask {a b c d w x y z : Nat} (ha : a < 256) (hb : b < 256)
    (hc : c < 256) (hd : d < 256) (hw : w < 256) (hx : x < 256) (hy : y < 256)
    (hz : z < 256) :
    broadcast (quadStr a b c d ++ "/" ++ quadStr w x y z) =
      some (quadStr (a ||| (255 - w)) (b ||| (255 - x)) (c ||| (255 - y))
        (d ||| (255 - z))) := by
  simp only [broadcast,
    splitS_slash (quad_slash_free ha hb hc hd) (quad_slash_free hw hx hy hz),
    resolveMaskBits_quad hw hx hy hz, ipaddr2bin_quad ha hb hc hd]
  have hcB : compB (bits8L w ++ (bits8L x ++ (bits8L y ++ bits8L z))) =
      bits8L (255 - w) ++ (bits8L (255 - x) ++ (bits8L (255 - y) ++ bits8L (255 - z))) := by
    rw [compB_append, compB_append, compB_append]
    rw [compB_bits w hw, compB_bits x hx, compB_bits y hy, compB_bits z hz]
  rw [hcB]
  rw [bitZip_bits8, bitZip_bits8, bitZip_bits8, bitZip_bits8_last]
  simp only [Option.map_some']
  rw [renderBits_or8, renderBits_or8, renderBits_or8, renderBits_or8]
  simp only [renderBits_nil, List.append_nil]
  rw [bin2ipaddr_bits (or256 ha (sub255_lt w)) (or256 hb (sub255_lt x))
    (or256 hc (sub255_lt y)) (or256 hd (sub255_lt z))]

theorem broadcast_quad_cidr {a b c d m : Nat} (ha : a < 256) (hb : b < 256)
    (hc : c < 256) (hd : d < 256) (hm : m < 33) :
    broadcast (quadStr a b c d ++ "/" ++ decS m) =
      some (quadStr (a ||| wcOctN m 0) (b ||| wcOctN m 1) (c ||| wcOctN m 2)
        (d ||| wcOctN m 3)) := by
  have hm256 : m < 256 := by omega
  simp only [broadcast,
    splitS_slash (quad_slash_free ha hb hc hd)
      (show ('/' : Char) ∉ (decS m).data from slash_not_mem_dec m hm256),
    resolveMaskBits_cidr hm, ipaddr2bin_quad ha hb hc hd]
  have hcB : compB (bits8L (maskOct m 0) ++ (bits8L (maskOct m 1) ++
      (bits8L (maskOct m 2) ++ bits8L (maskOct m 3)))) =
      bits8L (wcOctN m 0) ++ (bits8L (wcOctN m 1) ++
        (bits8L (wcOctN m 2) ++ bits8L (wcOctN m 3))) := by
    rw [compB_append, compB_append, compB_append]
    rw [compB_bits _ (maskOct_lt m 0), compB_bits _ (maskOct_lt m 1),
      compB_bits _ (maskOct_lt m 2), compB_bits _ (maskOct_lt m 3)]
    rfl
  rw [hcB]
  rw [bitZip_bits8, bitZip_bits8, bitZip_bits8, bitZip_bits8_last]
  simp only [Option.map_some']
  rw [renderBits_or8, renderBits_or8, renderBits_or8, renderBits_or8]
  simp only [renderBits_nil, List.append_nil]
  rw [bin2ipaddr_bits (or256 ha (wcOctN_lt m 0)) (or256 hb (wcOctN_lt m 1))
    (or256 hc (wcOctN_lt m 2)) (or256 hd (wcOctN_lt m 3))]

/-! ### Evaluating the membership test on canonical CIDR queries -/

theorem pyInt_decS {n : Nat} (h : n < 256) : pyInt (decS n) = some (n : Int) :=
  pyIntB10_dec n h

theorem decS_inj {m n : Nat} (hm : m < 256) (hn : n < 256) (h : decS m = decS n) :
    m = n := by
  have h1 := pyIntB10_dec m hm
  have h2 := pyIntB10_dec n hn
  have hd : natToDec m = natToDec n := congrArg String.data h
  rw [hd, h2] at h1
  have : (n : Int) = (m : Int) := Option.some.inj h1
  exact_mod_cast this.symm

theorem decS_beq_eq {m n : Nat} (hm : m < 256) (hn : n < 256) :
    (decS m == decS n) = (m == n) := by
  by_cases h : m = n
  · subst h
    simp
  · have hne : decS m ≠ decS n := fun e => h (decS_inj hm hn e)
    simp [h, hne]

theorem splitS_quad {a b c d : Nat} (ha : a < 256) (hb : b < 256) (hc : c < 256)
    (hd : d < 256) :
    splitS '.' (quadStr a b c d) = [decS a, decS b, decS c, decS d] := by
  unfold splitS
  rw [quad_split ha hb hc hd]
  rfl

theorem inNetLoop_cons {nv iv wv bv : Nat} (hn : nv < 256) (hi : iv < 256)
    (hb : bv < 256) (hw : ((natToDec wv).contains '0') = (wv == 0))
    (rest : List (String × String × String × String)) :
    inNetLoop ((decS nv, decS iv, decS wv, decS bv) :: rest) =
      (inNetLoop rest).map (fun r => octetCheck nv iv wv bv && r) := by
  simp only [inNetLoop]
  rw [show (decS wv).data = natToDec wv from rfl, hw]
  by_cases h0 : wv = 0
  · simp only [h0, octetCheck, if_pos rfl, beq_self_eq_true, if_true,
      decS_beq_eq hi hn]
  · have h0f : (wv == 0) = false := by simp [h0]
    rw [h0f]
    simp only [Bool.false_eq_true, if_false]
    rw [pyInt_decS hn, pyInt_decS hi]
    simp only [octetCheck, if_neg h0]
    by_cases h1 : (nv : Int) + 1 ≤ (iv : Int)
    · rw [if_pos h1, pyInt_decS hb]
      simp only [Bool.decide_and, decide_eq_true h1, Bool.true_and]
    · rw [if_neg h1]
      have hdf : decide ((nv : Int) + 1 ≤ (iv : Int) ∧ (iv : Int) ≤ (bv : Int) - 1) = false := by
        simp [h1]
      rw [hdf]

theorem isipaddrnet_quad_cidr {e f g h a b c d m : Nat} (he : e < 256) (hf : f < 256)
    (hg : g < 256) (hh : h < 256) (ha : a < 256) (hb : b < 256) (hc : c < 256)
    (hd : d < 256) (hm : m < 33) :
    isipaddrnet (quadStr e f g h) (quadStr a b c d ++ "/" ++ decS m) =
      some (inNetSpec e f g h a b c d m) := by
  have hm256 : m < 256 := by omega
  have h32 : (m : Int) ≤ 32 := by exact_mod_cast (show m ≤ 32 by omega)
  have hwq : wildcard (quadStr (maskOct m 0) (maskOct m 1) (maskOct m 2) (maskOct m 3)) =
      quadStr (wcOctN m 0) (wcOctN m 1) (wcOctN m 2) (wcOctN m 3) :=
    wildcard_quad (maskOct_lt m 0) (maskOct_lt m 1) (maskOct_lt m 2) (maskOct_lt m 3)
  unfold isipaddrnet
  rw [splitS_slash (quad_slash_free ha hb hc hd)
    (show ('/' : Char) ∉ (decS m).data from slash_not_mem_dec m hm256)]
  simp only [List.get?, pyInt_decS hm256, if_pos h32, cidr2netmask_quad m hm, hwq,
    network_quad_cidr ha hb hc hd hm, broadcast_quad_cidr ha hb hc hd hm]
  rw [splitS_quad (and256 (maskOct_lt m 0)) (and256 (maskOct_lt m 1))
    (and256 (maskOct_lt m 2)) (and256 (maskOct_lt m 3))]
  rw [splitS_quad he hf hg hh]
  rw [splitS_quad (wcOctN_lt m 0) (wcOctN_lt m 1) (wcOctN_lt m 2) (wcOctN_lt m 3)]
  rw [splitS_quad (or256 ha (wcOctN_lt m 0)) (or256 hb (wcOctN_lt m 1))
    (or256 hc (wcOctN_lt m 2)) (or256 hd (wcOctN_lt m 3))]
  simp only [zip4]
  rw [inNetLoop_cons (and256 (maskOct_lt m 0)) he (or256 ha (wcOctN_lt m 0))
    (wc_contains0 m hm 0 (by omega))]
  rw [inNetLoop_cons (and256 (maskOct_lt m 1)) hf (or256 hb (wcOctN_lt m 1))
    (wc_contains0 m hm 1 (by omega))]
  rw [inNetLoop_cons (and256 (maskOct_lt m 2)) hg (or256 hc (wcOctN_lt m 2))
    (wc_contains0 m hm 2 (by omega))]
  rw [inNetLoop_cons (and256 (maskOct_lt m 3)) hh (or256 hd (wcOctN_lt m 3))
    (wc_contains0 m hm 3 (by omega))]
  simp only [inNetLoop, Option.map_some', Bool.and_true, inNetSpec, Bool.and_assoc]

/-! ### The claims -/

/-- C1: for every membership query on a network given in CIDR form (canonical
dotted-decimal candidate and network addresses, prefix length at most 32),
`isipaddrnet` returns true iff every octet position passes its check: where
the wildcard octet is 0 the candidate octet must equal the network octet
exactly, and where there are host bits the candidate octet must lie strictly
between the network and broadcast octets,
`networkOctet + 1 <= candidateOctet <= broadcastOctet - 1`, so equality with
either boundary octet is rejected (in particular `192.168.1.130` is in
`192.168.1.128/25` and `192.168.1.128` is not). -/
theorem isipaddrnet_cidr_octet_rule (e f g h a b c d m : Nat)
    (he : e ≤ 255) (hf : f ≤ 255) (hg : g ≤ 255) (hh : h ≤ 255)
    (ha : a ≤ 255) (hb : b ≤ 255) (hc : c ≤ 255) (hd : d ≤ 255) (hm : m ≤ 32) :
    isipaddrnet (quadStr e f g h) (quadStr a b c d ++ "/" ++ decS m) =
      some (inNetSpec e f g h a b c d m) :=
  isipaddrnet_quad_cidr (by omega) (by omega) (by omega) (by omega) (by omega)
    (by omega) (by omega) (by omega) (by omega)

/-- Witness for C1: the two boundary examples of the claim. -/
theorem isipaddrnet_cidr_octet_rule_witness :
    isipaddrnet "192.168.1.130" "192.168.1.128/25" = some true ∧
    isipaddrnet "192.168.1.128" "192.168.1.128/25" = some false := by
  have e1 : ("192.168.1.130" : String) = quadStr 192 168 1 130 := by decide
  have e0 : ("192.168.1.128" : String) = quadStr 192 168 1 128 := by decide
  have e2 : ("192.168.1.128/25" : String) = quadStr 192 168 1 128 ++ "/" ++ decS 25 := by
    decide
  constructor
  · have h := isipaddrnet_cidr_octet_rule 192 168 1 130 192 168 1 128 25
      (by decide) (by decide) (by decide) (by decide) (by decide) (by decide)
      (by decide) (by decide) (by decide)
    rw [e1, e2, h]
    decide
  · have h := isipaddrnet_cidr_octet_rule 192 168 1 128 192 168 1 128 25
      (by decide) (by decide) (by decide) (by decide) (by decide) (by decide)
      (by decide) (by decide) (by decide)
    rw [e0, e2, h]
    decide

/-- C2 (code bug): per the spec and the function's own docstring, a mask spec
that does not parse as an integer at most 32 — a dotted netmask such as
`255.255.255.0` — should be treated as a literal netmask and the call should
return a boolean; the code instead evaluates `int(netmask)` unguarded, which
raises an uncaught `ValueError` (modelled as `none`). -/
theorem isipaddrnet_dotted_netmask_raises :
    isipaddrnet "10.0.0.5" "10.0.0.0/255.255.255.0" = none := by
  decide

/-- C3: on inputs `a.b.c.d/m` (CIDR prefix at most 32, hence at most two
characters) and `a.b.c.d/w.x.y.z` (dotted netmask, longer than two
characters), `network` returns the dotted-decimal form of the per-bit AND of
the address and the resolved netmask: per octet, `a &&& maskOct` in the CIDR
case and `a &&& w` in the netmask case. -/
theorem network_bitwise_and (a b c d m w x y z : Nat)
    (ha : a ≤ 255) (hb : b ≤ 255) (hc : c ≤ 255) (hd : d ≤ 255) (hm : m ≤ 32)
    (hw : w ≤ 255) (hx : x ≤ 255) (hy : y ≤ 255) (hz : z ≤ 255) :
    network (quadStr a b c d ++ "/" ++ decS m) =
      some (quadStr (a &&& maskOct m 0) (b &&& maskOct m 1) (c &&& maskOct m 2)
        (d &&& maskOct m 3)) ∧
    network (quadStr a b c d ++ "/" ++ quadStr w x y z) =
      some (quadStr (a &&& w) (b &&& x) (c &&& y) (d &&& z)) :=
  ⟨network_quad_cidr (by omega) (by omega) (by omega) (by omega) (by omega),
   network_quad_mask (by omega) (by omega) (by omega) (by omega) (by omega)
     (by omega) (by omega) (by omega)⟩

/-- Witness for C3: `network("192.168.1.10/24") = "192.168.1.0"`. -/
theorem network_bitwise_and_witness :
    network "192.168.1.10/24" = some "192.168.1.0" := by
  have e : ("192.168.1.10/24" : String) = quadStr 192 168 1 10 ++ "/" ++ decS 24 := by
    decide
  have h := network_bitwise_and 192 168 1 10 24 255 255 255 0
    (by decide) (by decide) (by decide) (by decide) (by decide) (by decide)
    (by decide) (by decide) (by decide)
  rw [e, h.1]
  decide

/-- C4: on the same two input shapes, `broadcast` first complements every bit
of the resolved netmask (the wildcard mask) and then ORs it bitwise with the
address: per octet, `a ||| wcOctN` in the CIDR case and `a ||| (255 - w)` in
the netmask case. -/
theorem broadcast_complement_or (a b c d m w x y z : Nat)
    (ha : a ≤ 255) (hb : b ≤ 255) (hc : c ≤ 255) (hd : d ≤ 255) (hm : m ≤ 32)
    (hw : w ≤ 255) (hx : x ≤ 255) (hy : y ≤ 255) (hz : z ≤ 255) :
    broadcast (quadStr a b c d ++ "/" ++ decS m) =
      some (quadStr (a ||| wcOctN m 0) (b ||| wcOctN m 1) (c ||| wcOctN m 2)
        (d ||| wcOctN m 3)) ∧
    broadcast (quadStr a b c d ++ "/" ++ quadStr w x y z) =
      some (quadStr (a ||| (255 - w)) (b ||| (255 - x)) (c ||| (255 - y))
        (d ||| (255 - z))) :=
  ⟨broadcast_quad_cidr (by omega) (by omega) (by omega) (by omega) (by omega),
   broadcast_quad_mask (by omega) (by omega) (by omega) (by omega) (by omega)
     (by omega) (by omega) (by omega)⟩

/-- Witness for C4: `broadcast("192.168.1.10/24") = "192.168.1.255"`. -/
theorem broadcast_complement_or_witness :
    broadcast "192.168.1.10/24" = some "192.168.1.255" := by
  have e : ("192.168.1.10/24" : String) = quadStr 192 168 1 10 ++ "/" ++ decS 24 := by
    decide
  have h := broadcast_complement_or 192 168 1 10 24 255 255 255 0
    (by decide) (by decide) (by decide) (by decide) (by decide) (by decide)
    (by decide) (by decide) (by decide)
  rw [e, h.1]
  decide

/-- C5: for every prefix length `p` in `[0, 32]`,
`netmask2cidr (cidr2netmask p) = p`: the round trip through the dotted
netmask restores the prefix length. -/
theorem cidr_netmask_roundtrip (p : Nat) (hp : p ≤ 32) :
    (cidr2netmask (p : Int)).bind netmask2cidr = some p := by
  have hAll : ∀ q : Nat, q ≤ 32 → (cidr2netmask (q : Int)).bind netmask2cidr = some q := by
    decide
  exact hAll p hp

/-- Witness for C5: the round trip at `p = 24`. -/
theorem cidr_netmask_roundtrip_witness :
    (cidr2netmask (24 : Int)).bind netmask2cidr = some 24 :=
  cidr_netmask_roundtrip 24 (by decide)

/-- C6 (code bug): the spec and the docstring (`Raises: ValueError`) promise a
typed failure for an octet not representable in 8 bits, never an ordinary
string; the code instead catches the `ValueError` and returns its message as
the function's string result for an unparseable octet, and for an
out-of-range octet such as 300 it does not fail at all, returning a malformed
33-character binary string. -/
theorem ipaddr2bin_error_as_string :
    ipaddr2bin "1.2.3.foo" "" = invalidLit 10 "foo" ∧
    ipaddr2bin "1.2.3.300" "" = "000000010000001000000011100101100" ∧
    (ipaddr2bin "1.2.3.300" "").length = 33 := by
  refine ⟨by decide, by decide, by decide⟩

/-- C7 counterexample: contrary to the claim that every prefix length outside
`[0, 32]` produces no result, a negative prefix does produce a netmask:
`cidr2netmask (-1) = some "0.0.0.0"`. -/
theorem cidr2netmask_neg_counterexample :
    cidr2netmask (-1) = some "0.0.0.0" := by
  decide

/-- C7 (amended): `cidr2netmask` returns no result exactly for prefix lengths
greater than 32; every prefix at most 32, including every negative one, is
accepted, a negative prefix yielding the netmask `0.0.0.0`. -/
theorem cidr2netmask_none_iff_gt32 (c : Int) :
    (cidr2netmask c = none ↔ 32 < c) ∧ (c < 0 → cidr2netmask c = some "0.0.0.0") := by
  constructor
  · unfold cidr2netmask
    by_cases hle : c ≤ 32
    · rw [if_pos hle]
      constructor
      · intro hsome
        simp at hsome
      · intro hgt
        omega
    · rw [if_neg hle]
      constructor
      · intro _
        omega
      · intro _
        rfl
  · intro hneg
    unfold cidr2netmask
    rw [if_pos (by omega : c ≤ 32)]
    rw [show c.toNat = 0 from Int.toNat_of_nonpos (by omega)]
    decide

/-- C8: for every canonical dotted-decimal netmask (octets 0–255), applying
`wildcard` twice returns the original netmask: the per-bit complement is an
involution. -/
theorem wildcard_involutive (a b c d : Nat) (ha : a ≤ 255) (hb : b ≤ 255)
    (hc : c ≤ 255) (hd : d ≤ 255) :
    wildcard (wildcard (quadStr a b c d)) = quadStr a b c d := by
  rw [wildcard_quad (by omega) (by omega) (by omega) (by omega)]
  rw [wildcard_quad (sub255_lt a) (sub255_lt b) (sub255_lt c) (sub255_lt d)]
  rw [show 255 - (255 - a) = a from by omega, show 255 - (255 - b) = b from by omega,
    show 255 - (255 - c) = c from by omega, show 255 - (255 - d) = d from by omega]

/-- Witness for C8: the double complement at `255.255.255.0`. -/
theorem wildcard_involutive_witness :
    wildcard (wildcard "255.255.255.0") = "255.255.255.0" := by
  have e : ("255.255.255.0" : String) = quadStr 255 255 255 0 := by decide
  rw [e]
  exact wildcard_involutive 255 255 255 0 (by decide) (by decide) (by decide) (by decide)

/-- C9: on a canonical dotted-decimal netmask with at least one octet not
equal to 255, `magic_number` returns the pair of 256 minus the leftmost
octet different from 255 together with that octet's index. -/
theorem magic_number_first_octet (w x y z : Nat) (hw : w ≤ 255) (hx : x ≤ 255)
    (hy : y ≤ 255) (hz : z ≤ 255)
    (hne : ¬ (w = 255 ∧ x = 255 ∧ y = 255 ∧ z = 255)) :
    magic_number (quadStr w x y z) = some (some (magicSpec w x y z)) := by
  unfold magic_number
  rw [show splitS '.' (quadStr w x y z) = [decS w, decS x, decS y, decS z] from
    splitS_quad (by omega) (by omega) (by omega) (by omega)]
  unfold magicSpec
  simp only [magicLoop, pyInt_decS (show w < 256 by omega),
    pyInt_decS (show x < 256 by omega), pyInt_decS (show y < 256 by omega),
    pyInt_decS (show z < 256 by omega)]
  have cw : ((w : Int) ≠ 255) ↔ w ≠ 255 := by omega
  have cx : ((x : Int) ≠ 255) ↔ x ≠ 255 := by omega
  have cy : ((y : Int) ≠ 255) ↔ y ≠ 255 := by omega
  have cz : ((z : Int) ≠ 255) ↔ z ≠ 255 := by omega
  simp only [cw, cx, cy, cz]
  by_cases h1 : w = 255 <;> by_cases h2 : x = 255 <;> by_cases h3 : y = 255 <;>
    by_cases h4 : z = 255
  · exact absurd ⟨h1, h2, h3, h4⟩ hne
  all_goals simp [h1, h2, h3, h4]

/-- Witness for C9: `magic_number("255.255.252.0") = (4, 2)`. -/
theorem magic_number_first_octet_witness :
    magic_number "255.255.252.0" = some (some (4, 2)) := by
  have e : ("255.255.252.0" : String) = quadStr 255 255 252 0 := by decide
  have h := magic_number_first_octet 255 255 252 0
    (by decide) (by decide) (by decide) (by decide) (by decide)
  rw [e, h]
  decide

/-- C10: on the netmask `255.255.255.255` the scan of `magic_number` finds no
octet different from 255, and the function returns Python's `None` (modelled
as `some none`) rather than a pair. -/
theorem magic_number_all_255 :
    magic_number "255.255.255.255" = some none := by
  decide

end Subnetting
